import Mathlib

/-!
Verification of the go-kvbench benchmark driver (`cmd/cli/main.go`) and two
backend adapters (`leveldb_store.go`, `pebble_store.go`) against their
natural-language specification.

The Go code is shallowly embedded: machine integers become `Nat` (with an
explicit `% 2 ^ 64` where uint64 wraparound matters), byte slices become
`List Nat` (each element `< 256` where relevant), the global `math/rand`
source becomes an abstract output stream `g : Nat → Nat` threaded through a
cursor, and the `Record` mutated by the phase functions becomes an explicit
`Record` value passed through pure phase transformers.
-/

namespace KVBench

/-- A benchmark record (`Record` in `main.go`): a run name, an ordered list
of column headers, and the positionally aligned integer column values. -/
structure Record where
  Name : String
  Headers : List String
  Values : List Int
deriving Repr, DecidableEq

/-- Appending one named column to a record: `record.Headers = append(...)`
followed by `record.Values = append(...)` in the Go phase functions. -/
def recordAppend (rec : Record) (h : String) (v : Int) : Record :=
  Record.mk rec.Name (rec.Headers ++ [h]) (rec.Values ++ [v])

/-- The record created in `main`: `Headers` starts as `["name"]` (the
`record.Headers = append(record.Headers, "name")` line) while `Values`
starts empty (`make([]int, 0)`). -/
def initRecord (name : String) : Record :=
  Record.mk name ["name"] []

/-- The per-worker counter merge `for _, count := range counts { n += count }`
of the time-bounded phases: a left fold of `+` starting from `0`. -/
def sumCounts (counts : List Nat) : Nat :=
  counts.foldl (fun a b => a + b) 0

/-- The throughput expression `int64(n)*1e6/(d/1e3)` printed and recorded by
every time-bounded phase (`testGet`, `testKeys`, `testSet`, `testDelete`,
`testGetSet`): Go integer division on nonnegative int64 values. -/
def phaseRate (counts : List Nat) (d : Nat) : Nat :=
  sumCounts counts * 1000000 / (d / 1000)

/-- The printed mean-latency expression `d/int64((n)*(*c))` of the
time-bounded phases. -/
def phaseMean (counts : List Nat) (c d : Nat) : Nat :=
  d / (sumCounts counts * c)

/-- The `(rate, mean)` pair each time-bounded phase reports in its
`fmt.Printf` line, with the rate also appended to the record. -/
def phaseReport (counts : List Nat) (c d : Nat) : Nat × Nat :=
  (phaseRate counts d, phaseMean counts c d)

/-- Modelled from the spec (§4.4 Metrics Aggregator): throughput is
`n * 1_000_000 / (d in microseconds)` with `d` converted to microseconds
first as `d / 1000`, all divisions integer divisions. -/
def specThroughput (n d : Nat) : Nat :=
  n * 1000000 / (d / 1000)

/-- Modelled from the spec (§4.4 Metrics Aggregator): mean latency is
`d / (n * c)` where `c` is the phase's worker count. -/
def specMeanLatency (n c d : Nat) : Nat :=
  d / (n * c)

/-- Record effect of `testSet`: appends the `"Set op/s"` column with the
computed rate. -/
def testSetRec (rec : Record) (counts : List Nat) (d : Nat) : Record :=
  recordAppend rec "Set op/s" (Int.ofNat (phaseRate counts d))

/-- Record effect of `testGet`: appends the `"Get op/s"` column with the
computed rate. -/
def testGetRec (rec : Record) (counts : List Nat) (d : Nat) : Record :=
  recordAppend rec "Get op/s" (Int.ofNat (phaseRate counts d))

/-- Record effect of `testDelete`: appends the `"Del op/s"` column with the
computed rate. -/
def testDeleteRec (rec : Record) (counts : List Nat) (d : Nat) : Record :=
  recordAppend rec "Del op/s" (Int.ofNat (phaseRate counts d))

/-- Record effect of `testKeys`: if the preliminary `store.Keys` probe
reported `ErrNotSupported`, append the `"Keys op/s"` column with the
sentinel `-1` and return; otherwise run the workers and append the computed
rate. -/
def testKeysRec (rec : Record) (notSupported : Bool) (counts : List Nat) (d : Nat) : Record :=
  if notSupported then
    recordAppend rec "Keys op/s" (-1)
  else
    recordAppend rec "Keys op/s" (Int.ofNat (phaseRate counts d))

/-- Record effect of `testGetSet`: appends the `"Setmixed op/s"` header,
then either the sentinel `-1` (when the dedicated writer completed zero
sets) or the writer's rate, then the `"Getmixed op/s"` column. -/
def testGetSetRec (rec : Record) (setCount : Nat) (counts : List Nat) (d : Nat) : Record :=
  let rec1 := Record.mk rec.Name (rec.Headers ++ ["Setmixed op/s"]) rec.Values
  let rec2 :=
    if setCount == 0 then
      Record.mk rec1.Name rec1.Headers (rec1.Values ++ [-1])
    else
      Record.mk rec1.Name rec1.Headers
        (rec1.Values ++ [Int.ofNat (setCount * 1000000 / (d / 1000))])
  recordAppend rec2 "Getmixed op/s" (Int.ofNat (phaseRate counts d))

/-- Record effect of `testBatchWriteFixCount`: appends the
`"batch write cost(s)"` column with the elapsed seconds. -/
def testBatchWriteRec (rec : Record) (costSeconds : Int) : Record :=
  recordAppend rec "batch write cost(s)" costSeconds

/-- Record effect of `showMemUsage`: appends the `"MemUsage(MiB)"` and
`"HeapInuse(MiB)"` columns. -/
def showMemUsageRec (rec : Record) (alloc heapInuse : Int) : Record :=
  recordAppend (recordAppend rec "MemUsage(MiB)" alloc) "HeapInuse(MiB)" heapInuse

/-- Record effect of `showDiskUsage`: when `os.Stat` reports the path does
not exist (`stat = none`) the function returns before touching the record;
otherwise it appends the `"DiskUsage(MiB)"` column with the measured size. -/
def showDiskUsageRec (rec : Record) (stat : Option Int) : Record :=
  match stat with
  | none => rec
  | some sz => recordAppend rec "DiskUsage(MiB)" sz

/-- The measurements a full run feeds to the phase functions, in `main`'s
phase order. `diskStat = none` models `os.Stat` reporting a non-existent
store path; `keysNotSupported` models the preliminary `store.Keys` probe
returning `ErrNotSupported`. -/
structure RunInputs where
  batchCost : Int
  memAlloc : Int
  heapInuse : Int
  diskStat : Option Int
  keysNotSupported : Bool
  keysCounts : List Nat
  keysDur : Nat
  setCounts : List Nat
  setDur : Nat
  getCounts : List Nat
  getDur : Nat
  mixedSetCount : Nat
  mixedCounts : List Nat
  mixedDur : Nat
  delCounts : List Nat
  delDur : Nat
deriving Repr

/-- The record produced by `main`'s fixed phase sequence:
`testBatchWriteFixCount`, `showMemUsage`, `showDiskUsage`, `testKeys`,
`testSet`, `testGet`, `testGetSet`, `testDelete`. -/
def runRecord (name : String) (inp : RunInputs) : Record :=
  testDeleteRec
    (testGetSetRec
      (testGetRec
        (testSetRec
          (testKeysRec
            (showDiskUsageRec
              (showMemUsageRec
                (testBatchWriteRec (initRecord name) inp.batchCost)
                inp.memAlloc inp.heapInuse)
              inp.diskStat)
            inp.keysNotSupported inp.keysCounts inp.keysDur)
          inp.setCounts inp.setDur)
        inp.getCounts inp.getDur)
      inp.mixedSetCount inp.mixedCounts inp.mixedDur)
    inp.delCounts inp.delDur

/-- The CSV value row built by `saveReorder`: the run name followed by the
decimal rendering of each recorded value. -/
def saveRow (rec : Record) : List String :=
  rec.Name :: rec.Values.map (fun v => toString v)

/-! ### The random source and key generation

`math/rand` is modelled as an abstract output stream `g : Nat → Nat` read at
an advancing cursor `p`: `rand.Intn m` consumes one output reduced mod `m`,
`rand.Read buf` consumes `len(buf)` outputs each reduced mod 256. -/

/-- `rand.Intn m`: one stream output reduced into `[0, m)`. -/
def randIntn (g : Nat → Nat) (m p : Nat) : Nat × Nat :=
  (g p % m, p + 1)

/-- `rand.Read` over an `n`-byte buffer: `n` stream outputs as bytes. -/
def randRead (g : Nat → Nat) (n p : Nat) : List Nat × Nat :=
  ((List.range n).map (fun k => g (p + k) % 256), p + n)

/-- `binary.BigEndian.PutUint64`: the eight big-endian bytes of a uint64. -/
def bigEndian8 (i : Nat) : List Nat :=
  [i / 2 ^ 56 % 256, i / 2 ^ 48 % 256, i / 2 ^ 40 % 256, i / 2 ^ 32 % 256,
   i / 2 ^ 24 % 256, i / 2 ^ 16 % 256, i / 2 ^ 8 % 256, i % 256]

/-- `genKey`: a 9-byte key whose leading byte is `32 + rand.Intn(127-32)`
and whose remaining 8 bytes are the big-endian encoding of the uint64
logical index. -/
def genKey (g : Nat → Nat) (i p : Nat) : List Nat × Nat :=
  let vp := randIntn g (127 - 32) p
  ((32 + vp.1) :: bigEndian8 (i % 2 ^ 64), vp.2)

/-- The first loop of a `testBatchWriteFixCount` page: `endIdx - startIdx`
iterations each appending `genKey(uint64(endIdx-startIdx))` to the key list
(the value list is filled with zero buffers that the second loop fully
overwrites, so only the keys are tracked here). -/
def initKeysLoop (g : Nat → Nat) (batch : Nat) : Nat → Nat → List (List Nat) × Nat
  | 0, p => ([], p)
  | n + 1, p =>
    let kp := genKey g batch p
    let rest := initKeysLoop g batch n kp.2
    (kp.1 :: rest.1, rest.2)

/-- The second loop of a `testBatchWriteFixCount` page: for each key buffer,
`rand.Read(keyList[i])` overwrites its bytes, `rand.Read(valList[i])`
overwrites the `size`-byte value, and `keyList[i][0] = byte(32 + rand.Intn(127-32))`
forces the leading key byte into the printable range. -/
def fillLoop (g : Nat → Nat) (size : Nat) :
    List (List Nat) → Nat → (List (List Nat) × List (List Nat)) × Nat
  | [], p => (([], []), p)
  | k :: ks, p =>
    let kb := randRead g k.length p
    let vb := randRead g size kb.2
    let vv := randIntn g (127 - 32) vb.2
    let rest := fillLoop g size ks vv.2
    ((((32 + vv.1) :: kb.1.drop 1) :: rest.1.1, vb.1 :: rest.1.2), rest.2)

/-- One page of `testBatchWriteFixCount`: build `batch` fresh key buffers,
then fill keys and values with random bytes and force each leading key
byte printable. The result is the `(keyList, valList)` pair handed to one
`PSet` call. -/
def batchPage (g : Nat → Nat) (size batch p : Nat) :
    (List (List Nat) × List (List Nat)) × Nat :=
  let ks := initKeysLoop g batch batch p
  fillLoop g size ks.1 ks.2

/-- The page count of `testBatchWriteFixCount`: `count / 1000` when `count`
is a multiple of the batch size 1000, else `count / 1000 + 1`. -/
def pageCount (count : Nat) : Nat :=
  if count % 1000 == 0 then count / 1000 else count / 1000 + 1

/-- The sequential page loop: one `PSet` call per page, each page built from
the stream state the previous page left behind. -/
def batchPages (g : Nat → Nat) (size : Nat) :
    Nat → Nat → List (List (List Nat) × List (List Nat)) × Nat
  | 0, p => ([], p)
  | n + 1, p =>
    let pg := batchPage g size 1000 p
    let rest := batchPages g size n pg.2
    (pg.1 :: rest.1, rest.2)

/-- `testBatchWriteFixCount`: the list of `PSet` calls (each a key list and
a value list) issued for a requested total `count`, in issue order. -/
def testBatchWriteCalls (g : Nat → Nat) (size count p : Nat) :
    List (List (List Nat) × List (List Nat)) :=
  (batchPages g size (pageCount count) p).1

/-- The `total` counter of `testBatchWriteFixCount`: the summed `len(keyList)`
over all issued `PSet` calls. -/
def totalWritten (pages : List (List (List Nat) × List (List Nat))) : Nat :=
  (pages.map (fun pg => pg.1.length)).sum

lemma fillLoop_spec (g : Nat → Nat) (size : Nat) :
    ∀ (ks : List (List Nat)) (p : Nat),
      (fillLoop g size ks p).1.1.length = ks.length ∧
      (fillLoop g size ks p).1.2.length = ks.length ∧
      ∀ k ∈ (fillLoop g size ks p).1.1,
        ∃ h t, k = h :: t ∧ 32 ≤ h ∧ h ≤ 126 := by
  intro ks
  induction ks with
  | nil => intro p; simp [fillLoop]
  | cons k rest ih =>
    intro p
    simp only [fillLoop, List.length_cons, List.mem_cons]
    obtain ⟨h1, h2, h3⟩ := ih (randIntn g (127 - 32)
      (randRead g size (randRead g k.length p).2).2).2
    refine ⟨by simp [h1], by simp [h2], ?_⟩
    rintro x (rfl | hx)
    · refine ⟨_, _, rfl, by omega, ?_⟩
      have : g (randRead g size (randRead g k.length p).2).2 % (127 - 32) < 95 :=
        Nat.mod_lt _ (by norm_num)
      simp only [randIntn]
      omega
    · exact h3 x hx

lemma initKeysLoop_len (g : Nat → Nat) (batch : Nat) :
    ∀ (n p : Nat), (initKeysLoop g batch n p).1.length = n := by
  intro n
  induction n with
  | zero => intro p; simp [initKeysLoop]
  | succ m ih => intro p; simp [initKeysLoop, ih]

lemma batchPage_spec (g : Nat → Nat) (size batch p : Nat) :
    (batchPage g size batch p).1.1.length = batch ∧
    (batchPage g size batch p).1.2.length = batch ∧
    ∀ k ∈ (batchPage g size batch p).1.1,
      ∃ h t, k = h :: t ∧ 32 ≤ h ∧ h ≤ 126 := by
  have hlen := initKeysLoop_len g batch batch p
  have := fillLoop_spec g size (initKeysLoop g batch batch p).1
    (initKeysLoop g batch batch p).2
  simpa [batchPage, hlen] using this

lemma batchPages_spec (g : Nat → Nat) (size : Nat) :
    ∀ (n p : Nat),
      (batchPages g size n p).1.length = n ∧
      ∀ pg ∈ (batchPages g size n p).1,
        pg.1.length = 1000 ∧ pg.2.length = 1000 ∧
        ∀ k ∈ pg.1, ∃ h t, k = h :: t ∧ 32 ≤ h ∧ h ≤ 126 := by
  intro n
  induction n with
  | zero => intro p; simp [batchPages]
  | succ m ih =>
    intro p
    simp only [batchPages, List.length_cons, List.mem_cons]
    obtain ⟨h1, h2⟩ := ih (batchPage g size 1000 p).2
    refine ⟨by simp [h1], ?_⟩
    rintro pg (rfl | hpg)
    · obtain ⟨ha, hb, hc⟩ := batchPage_spec g size 1000 p
      exact ⟨ha, hb, hc⟩
    · exact h2 pg hpg

lemma batchPages_total (g : Nat → Nat) (size : Nat) :
    ∀ (n p : Nat), totalWritten (batchPages g size n p).1 = n * 1000 := by
  intro n
  induction n with
  | zero => intro p; simp [batchPages, totalWritten]
  | succ m ih =>
    intro p
    have hpg := (batchPage_spec g size 1000 p).1
    simp only [batchPages, totalWritten, List.map_cons, List.sum_cons, hpg]
    have := ih (batchPage g size 1000 p).2
    simp only [totalWritten] at this
    rw [this]
    ring

/-- C2: for a requested bulk-load count of 4000, `testBatchWriteFixCount`
issues exactly 4 `PSet` calls (sequentially, by construction of the single
page loop), each carrying exactly 1000 keys and exactly 1000 values, and
every key's leading byte lies in the printable range `[32, 126]`. -/
theorem C2_bulk_load_4000 :
    ∀ (g : Nat → Nat) (size p : Nat),
      (testBatchWriteCalls g size 4000 p).length = 4 ∧
      ∀ pg ∈ testBatchWriteCalls g size 4000 p,
        pg.1.length = 1000 ∧ pg.2.length = 1000 ∧
        ∀ k ∈ pg.1, ∃ h t, k = h :: t ∧ 32 ≤ h ∧ h ≤ 126 := by
  intro g size p
  have hpc : pageCount 4000 = 4 := by decide
  obtain ⟨h1, h2⟩ := batchPages_spec g size (pageCount 4000) p
  exact ⟨by simpa [testBatchWriteCalls, hpc] using h1,
    by simpa [testBatchWriteCalls] using h2⟩

/-- C10: for a requested bulk-load count that is not a multiple of 1000,
`testBatchWriteFixCount` issues exactly `count / 1000 + 1` `PSet` calls,
each still carrying exactly 1000 key/value pairs, so the total number of
entries written is `ceil(count/1000) * 1000`, strictly more than
requested. -/
theorem C10_bulk_load_overshoot :
    ∀ (g : Nat → Nat) (size count p : Nat), count % 1000 ≠ 0 →
      (testBatchWriteCalls g size count p).length = count / 1000 + 1 ∧
      (∀ pg ∈ testBatchWriteCalls g size count p,
        pg.1.length = 1000 ∧ pg.2.length = 1000) ∧
      totalWritten (testBatchWriteCalls g size count p) =
        (count + 999) / 1000 * 1000 ∧
      count < totalWritten (testBatchWriteCalls g size count p) := by
  intro g size count p hmod
  have hpc : pageCount count = count / 1000 + 1 := by
    simp only [pageCount, beq_iff_eq]
    rw [if_neg hmod]
  obtain ⟨h1, h2⟩ := batchPages_spec g size (pageCount count) p
  have hlen : (testBatchWriteCalls g size count p).length = count / 1000 + 1 := by
    simpa [testBatchWriteCalls, hpc] using h1
  have hpages : ∀ pg ∈ testBatchWriteCalls g size count p,
      pg.1.length = 1000 ∧ pg.2.length = 1000 := by
    intro pg hpg
    obtain ⟨ha, hb, _⟩ := h2 pg (by simpa [testBatchWriteCalls] using hpg)
    exact ⟨ha, hb⟩
  have htot : totalWritten (testBatchWriteCalls g size count p) =
      (count / 1000 + 1) * 1000 := by
    rw [testBatchWriteCalls, hpc] at hlen ⊢
    rw [batchPages_total g size (count / 1000 + 1) p]
  refine ⟨hlen, hpages, ?_, ?_⟩
  · rw [htot]
    congr 1
    omega
  · rw [htot]
    omega

/-- Witness for C10 at the concrete count 1500. -/
theorem C10_bulk_load_overshoot_witness :
    (1500 % 1000 ≠ 0) ∧
    ((testBatchWriteCalls (fun _ => 0) 0 1500 0).length = 1500 / 1000 + 1 ∧
      (∀ pg ∈ testBatchWriteCalls (fun _ => 0) 0 1500 0,
        pg.1.length = 1000 ∧ pg.2.length = 1000) ∧
      totalWritten (testBatchWriteCalls (fun _ => 0) 0 1500 0) =
        (1500 + 999) / 1000 * 1000 ∧
      1500 < totalWritten (testBatchWriteCalls (fun _ => 0) 0 1500 0)) :=
  ⟨by decide, C10_bulk_load_overshoot (fun _ => 0) 0 1500 0 (by decide)⟩

/-! ### Big-endian decoding and the get-phase index loop -/

/-- Big-endian byte-list decoding, inverse to `bigEndian8` on uint64
values. -/
def beDecode : List Nat → Nat
  | [] => 0
  | b :: bs => b * 2 ^ (8 * bs.length) + beDecode bs

lemma beDecode_bigEndian8 (i : Nat) (h : i < 2 ^ 64) :
    beDecode (bigEndian8 i) = i := by
  simp only [bigEndian8, beDecode, List.length_cons, List.length_nil]
  norm_num
  omega

lemma bigEndian8_inj (i j : Nat) (hi : i < 2 ^ 64) (hj : j < 2 ^ 64)
    (h : bigEndian8 i = bigEndian8 j) : i = j := by
  have := congrArg beDecode h
  rwa [beDecode_bigEndian8 i hi, beDecode_bigEndian8 j hj] at this

/-- One iteration of a `testGet` worker's loop on a `(index, count)` state:
on a miss the index is reset to the worker id `w` (`i = index`), then the
stride `i += uint64(*c)` and `count++` are applied unconditionally, all in
uint64 arithmetic. -/
def getStep (c w : Nat) (s : Nat × Nat) (miss : Bool) : Nat × Nat :=
  (((if miss then w else s.1) + c) % 2 ^ 64, s.2 + 1)

/-- A `testGet` worker's `(index, count)` state after processing the given
chronological list of miss outcomes, starting from `i := index = w` and
`count = 0`. The first component is the index its next attempt will use. -/
def getLoop (c w : Nat) (ms : List Bool) : Nat × Nat :=
  ms.foldl (getStep c w) (w, 0)

lemma getLoop_go (c w : Nat) :
    ∀ (ms : List Bool) (s : Nat × Nat), w ≤ s.1 → s.1 % c = w % c →
      s.1 + ms.length * c < 2 ^ 64 →
      (ms.foldl (getStep c w) s).1 % c = w % c ∧
      w ≤ (ms.foldl (getStep c w) s).1 ∧
      (ms.foldl (getStep c w) s).1 ≤ s.1 + ms.length * c := by
  intro ms
  induction ms with
  | nil =>
    intro s h1 h2 h3
    simpa using ⟨h2, h1⟩
  | cons m rest ih =>
    intro s h1 h2 h3
    rw [List.length_cons, Nat.succ_mul] at h3
    have hif : (if m then w else s.1) ≤ s.1 := by
      cases m
      · simp
      · simpa using h1
    have hb : (if m then w else s.1) + c < 2 ^ 64 := by
      have := Nat.zero_le (rest.length * c)
      omega
    have hstep : (getStep c w s m).1 = (if m then w else s.1) + c := by
      simp only [getStep]
      exact Nat.mod_eq_of_lt hb
    have hmod : (getStep c w s m).1 % c = w % c := by
      rw [hstep, Nat.add_mod_right]
      cases m
      · simpa using h2
      · simp
    have hge : w ≤ (getStep c w s m).1 := by
      rw [hstep]
      cases m
      · simp only [Bool.false_eq_true, if_false]
        omega
      · simp only [if_true]
        omega
    have hbound : (getStep c w s m).1 + rest.length * c < 2 ^ 64 := by
      rw [hstep]
      omega
    obtain ⟨ih1, ih2, ih3⟩ := ih (getStep c w s m) hge hmod hbound
    refine ⟨by simpa [List.foldl_cons] using ih1,
      by simpa [List.foldl_cons] using ih2, ?_⟩
    rw [List.foldl_cons, List.length_cons, Nat.succ_mul]
    have hstep_le : (getStep c w s m).1 ≤ s.1 + c := by
      rw [hstep]
      omega
    omega

lemma getLoop_count (c w : Nat) :
    ∀ (ms : List Bool) (s : Nat × Nat),
      (ms.foldl (getStep c w) s).2 = s.2 + ms.length := by
  intro ms
  induction ms with
  | nil => intro s; simp
  | cons m rest ih =>
    intro s
    rw [List.foldl_cons, ih]
    simp only [getStep, List.length_cons]
    omega

lemma getLoop_mod (c w : Nat) (ms : List Bool)
    (hb : w + ms.length * c < 2 ^ 64) :
    (getLoop c w ms).1 % c = w % c :=
  (getLoop_go c w ms (w, 0) (Nat.le_refl w) rfl hb).1

/-- C3: (1) for distinct uint64 logical indices, `genKey`'s 8-byte suffix is
distinct regardless of the random leading byte; (2) for any worker count
`c ≥ 1`, distinct `(worker, step)` pairs with the worker id below `c` yield
distinct 8-byte suffixes (for the in-phase index values, which stay below
`2 ^ 64`); (3) across the get phase's miss resets, a worker's index stays
congruent to its worker id modulo `c`; (4) hence two distinct workers of
one phase never target the same logical index. -/
theorem C3_key_distinctness :
    (∀ (g1 g2 : Nat → Nat) (p1 p2 i1 i2 : Nat),
      i1 < 2 ^ 64 → i2 < 2 ^ 64 → i1 ≠ i2 →
      (genKey g1 i1 p1).1.tail ≠ (genKey g2 i2 p2).1.tail) ∧
    (∀ c w1 w2 s1 s2 : Nat, 0 < c → w1 < c → w2 < c →
      (w1, s1) ≠ (w2, s2) →
      w1 + s1 * c < 2 ^ 64 → w2 + s2 * c < 2 ^ 64 →
      bigEndian8 (w1 + s1 * c) ≠ bigEndian8 (w2 + s2 * c)) ∧
    (∀ (c w : Nat) (ms : List Bool),
      w + ms.length * c < 2 ^ 64 →
      (getLoop c w ms).1 % c = w % c) ∧
    (∀ (c w1 w2 : Nat) (ms1 ms2 : List Bool), w1 < c → w2 < c → w1 ≠ w2 →
      w1 + ms1.length * c < 2 ^ 64 → w2 + ms2.length * c < 2 ^ 64 →
      (getLoop c w1 ms1).1 ≠ (getLoop c w2 ms2).1) := by
  refine ⟨?_, ?_, ?_, ?_⟩
  · intro g1 g2 p1 p2 i1 i2 h1 h2 hne
    simp only [genKey, List.tail_cons, Nat.mod_eq_of_lt h1, Nat.mod_eq_of_lt h2]
    intro heq
    exact hne (bigEndian8_inj i1 i2 h1 h2 heq)
  · intro c w1 w2 s1 s2 hc hw1 hw2 hne hb1 hb2
    intro heq
    have hidx := bigEndian8_inj _ _ hb1 hb2 heq
    have hm1 : (w1 + s1 * c) % c = w1 := by
      rw [Nat.add_mul_mod_self_right]
      exact Nat.mod_eq_of_lt hw1
    have hm2 : (w2 + s2 * c) % c = w2 := by
      rw [Nat.add_mul_mod_self_right]
      exact Nat.mod_eq_of_lt hw2
    have hw : w1 = w2 := by rw [← hm1, ← hm2, hidx]
    have hs : s1 * c = s2 * c := by omega
    have : s1 = s2 := Nat.eq_of_mul_eq_mul_right hc hs
    exact hne (by rw [hw, this])
  · intro c w ms hb
    exact getLoop_mod c w ms hb
  · intro c w1 w2 ms1 ms2 hw1 hw2 hne hb1 hb2
    intro heq
    have h1 := getLoop_mod c w1 ms1 hb1
    have h2 := getLoop_mod c w2 ms2 hb2
    rw [heq, h2, Nat.mod_eq_of_lt hw1, Nat.mod_eq_of_lt hw2] at h1
    exact hne h1.symm

/-- Witness for C3 at concrete inputs. -/
theorem C3_key_distinctness_witness :
    ((genKey (fun _ => 0) 0 0).1.tail ≠ (genKey (fun _ => 0) 1 0).1.tail) ∧
    bigEndian8 (0 + 0 * 2) ≠ bigEndian8 (1 + 0 * 2) ∧
    (getLoop 2 0 [true]).1 % 2 = 0 % 2 ∧
    (getLoop 2 0 [true]).1 ≠ (getLoop 2 1 [false]).1 :=
  ⟨C3_key_distinctness.1 (fun _ => 0) (fun _ => 0) 0 0 0 1 (by norm_num)
      (by norm_num) (by decide),
    C3_key_distinctness.2.1 2 0 1 0 0 (by decide) (by decide) (by decide)
      (by decide) (by norm_num) (by norm_num),
    C3_key_distinctness.2.2.1 2 0 [true] (by norm_num),
    C3_key_distinctness.2.2.2 2 0 1 [true] [false] (by decide) (by decide)
      (by decide) (by norm_num) (by norm_num)⟩

/-- C6 counterexample: with one worker (`c = 1`), worker 0 starts at index 0;
after that attempt misses, the code's very next attempt uses index
`1 = 0 + c`, not the worker's starting id 0. -/
theorem C6_counterexample :
    (getLoop 1 0 [true]).1 = 1 ∧ (1 : Nat) ≠ 0 := by
  constructor
  · decide
  · decide

/-- C6 amended: whenever a `testGet` worker's `Get` misses, the index used
for its very next attempt equals the worker's starting id plus one stride,
`(w + c) % 2 ^ 64` — the reset `i = index` is immediately followed by
`i += uint64(*c)` — and every attempt, hit or miss, increments the worker's
local counter exactly once. -/
theorem C6_miss_reset_amended :
    ∀ (c w : Nat) (ms : List Bool),
      (getLoop c w (ms ++ [true])).1 = (w + c) % 2 ^ 64 ∧
      (getLoop c w ms).2 = ms.length := by
  intro c w ms
  constructor
  · rw [getLoop, List.foldl_append]
    simp [getStep]
  · simpa using getLoop_count c w ms (w, 0)

lemma sumCounts_go (counts : List Nat) :
    ∀ a : Nat, counts.foldl (fun x y => x + y) a = a + counts.sum := by
  induction counts with
  | nil => intro a; simp
  | cons c cs ih =>
    intro a
    simp only [List.foldl_cons, List.sum_cons, ih]
    omega

lemma sumCounts_eq_sum (counts : List Nat) : sumCounts counts = counts.sum := by
  simpa [sumCounts] using sumCounts_go counts 0

/-! ### Shape of the full run record -/

/-- The headers appended before the disk-usage column. -/
def headHeaders : List String :=
  ["name", "batch write cost(s)", "MemUsage(MiB)", "HeapInuse(MiB)"]

/-- The headers appended after the disk-usage column. -/
def tailHeaders : List String :=
  ["Keys op/s", "Set op/s", "Get op/s", "Setmixed op/s", "Getmixed op/s",
   "Del op/s"]

/-- The values recorded before the disk-usage column. -/
def headValues (inp : RunInputs) : List Int :=
  [inp.batchCost, inp.memAlloc, inp.heapInuse]

/-- The values recorded after the disk-usage column. -/
def tailValues (inp : RunInputs) : List Int :=
  [(if inp.keysNotSupported then -1
    else Int.ofNat (phaseRate inp.keysCounts inp.keysDur)),
   Int.ofNat (phaseRate inp.setCounts inp.setDur),
   Int.ofNat (phaseRate inp.getCounts inp.getDur),
   (if inp.mixedSetCount == 0 then -1
    else Int.ofNat (inp.mixedSetCount * 1000000 / (inp.mixedDur / 1000))),
   Int.ofNat (phaseRate inp.mixedCounts inp.mixedDur),
   Int.ofNat (phaseRate inp.delCounts inp.delDur)]

/-- The optional disk-usage header, present iff `os.Stat` found the path. -/
def diskHeader (stat : Option Int) : List String :=
  match stat with
  | none => []
  | some _ => ["DiskUsage(MiB)"]

/-- The optional disk-usage value, present iff `os.Stat` found the path. -/
def diskValue (stat : Option Int) : List Int :=
  match stat with
  | none => []
  | some sz => [sz]

lemma runRecord_eq (name : String) (inp : RunInputs) :
    (runRecord name inp).Name = name ∧
    (runRecord name inp).Headers =
      headHeaders ++ diskHeader inp.diskStat ++ tailHeaders ∧
    (runRecord name inp).Values =
      headValues inp ++ diskValue inp.diskStat ++ tailValues inp := by
  cases hds : inp.diskStat with
  | none =>
    cases hks : inp.keysNotSupported <;>
      by_cases hmx : inp.mixedSetCount = 0 <;>
        simp [runRecord, testDeleteRec, testGetSetRec, testGetRec, testSetRec,
          testKeysRec, showDiskUsageRec, showMemUsageRec, testBatchWriteRec,
          initRecord, recordAppend, headHeaders, tailHeaders, headValues,
          tailValues, diskHeader, diskValue, hds, hks, hmx]
  | some sz =>
    cases hks : inp.keysNotSupported <;>
      by_cases hmx : inp.mixedSetCount = 0 <;>
        simp [runRecord, testDeleteRec, testGetSetRec, testGetRec, testSetRec,
          testKeysRec, showDiskUsageRec, showMemUsageRec, testBatchWriteRec,
          initRecord, recordAppend, headHeaders, tailHeaders, headValues,
          tailValues, diskHeader, diskValue, hds, hks, hmx]

/-- `r'` extends `r` by appending equally many headers and values, leaving
the existing columns and the name untouched. -/
def ExtendsBy (r r' : Record) : Prop :=
  r'.Name = r.Name ∧
  ∃ hs vs, hs.length = vs.length ∧
    r'.Headers = r.Headers ++ hs ∧ r'.Values = r.Values ++ vs

lemma extendsBy_batch (rec : Record) (cost : Int) :
    ExtendsBy rec (testBatchWriteRec rec cost) :=
  ⟨rfl, ["batch write cost(s)"], [cost], rfl, rfl, rfl⟩

lemma extendsBy_mem (rec : Record) (a h : Int) :
    ExtendsBy rec (showMemUsageRec rec a h) :=
  ⟨rfl, ["MemUsage(MiB)", "HeapInuse(MiB)"], [a, h], rfl,
    by simp [showMemUsageRec, recordAppend],
    by simp [showMemUsageRec, recordAppend]⟩

lemma extendsBy_disk (rec : Record) (stat : Option Int) :
    ExtendsBy rec (showDiskUsageRec rec stat) := by
  cases stat with
  | none => exact ⟨rfl, [], [], rfl, by simp [showDiskUsageRec],
      by simp [showDiskUsageRec]⟩
  | some sz => exact ⟨rfl, ["DiskUsage(MiB)"], [sz], rfl, rfl, rfl⟩

lemma extendsBy_keys (rec : Record) (ns : Bool) (counts : List Nat) (d : Nat) :
    ExtendsBy rec (testKeysRec rec ns counts d) := by
  cases ns with
  | false => exact ⟨rfl, ["Keys op/s"],
      [Int.ofNat (phaseRate counts d)], rfl,
      by simp [testKeysRec, recordAppend], by simp [testKeysRec, recordAppend]⟩
  | true => exact ⟨rfl, ["Keys op/s"], [-1], rfl,
      by simp [testKeysRec, recordAppend], by simp [testKeysRec, recordAppend]⟩

lemma extendsBy_set (rec : Record) (counts : List Nat) (d : Nat) :
    ExtendsBy rec (testSetRec rec counts d) :=
  ⟨rfl, ["Set op/s"], [Int.ofNat (phaseRate counts d)], rfl, rfl, rfl⟩

lemma extendsBy_get (rec : Record) (counts : List Nat) (d : Nat) :
    ExtendsBy rec (testGetRec rec counts d) :=
  ⟨rfl, ["Get op/s"], [Int.ofNat (phaseRate counts d)], rfl, rfl, rfl⟩

lemma extendsBy_getset (rec : Record) (sc : Nat) (counts : List Nat) (d : Nat) :
    ExtendsBy rec (testGetSetRec rec sc counts d) := by
  by_cases hsc : sc = 0
  · refine ⟨?_, ["Setmixed op/s", "Getmixed op/s"],
      [-1, Int.ofNat (phaseRate counts d)], rfl, ?_, ?_⟩ <;>
      simp [testGetSetRec, recordAppend, hsc]
  · refine ⟨?_, ["Setmixed op/s", "Getmixed op/s"],
      [Int.ofNat (sc * 1000000 / (d / 1000)), Int.ofNat (phaseRate counts d)],
      rfl, ?_, ?_⟩ <;>
      simp [testGetSetRec, recordAppend, hsc]

lemma extendsBy_del (rec : Record) (counts : List Nat) (d : Nat) :
    ExtendsBy rec (testDeleteRec rec counts d) :=
  ⟨rfl, ["Del op/s"], [Int.ofNat (phaseRate counts d)], rfl, rfl, rfl⟩

lemma ExtendsBy.headers_prefix {r r' : Record} (h : ExtendsBy r r') :
    r.Headers <+: r'.Headers := by
  obtain ⟨-, hs, vs, -, hh, -⟩ := h
  exact hh ▸ List.prefix_append _ _

lemma ExtendsBy.values_prefix {r r' : Record} (h : ExtendsBy r r') :
    r.Values <+: r'.Values := by
  obtain ⟨-, hs, vs, -, -, hv⟩ := h
  exact hv ▸ List.prefix_append _ _

lemma ExtendsBy.len_preserve {r r' : Record} (h : ExtendsBy r r')
    (hlen : r.Headers.length = r.Values.length + 1) :
    r'.Headers.length = r'.Values.length + 1 := by
  obtain ⟨-, hs, vs, hl, hh, hv⟩ := h
  rw [hh, hv]
  simp only [List.length_append]
  omega

/-- C4 counterexample: right after the Record is created in `main`
(`Headers = ["name"]`, `Values = make([]int, 0)`) the claimed equality
`len(Headers) == len(Values)` already fails: 1 ≠ 0. -/
theorem C4_counterexample :
    (initRecord "map/nofsync").Headers.length ≠
      (initRecord "map/nofsync").Values.length := by
  decide

/-- C4 amended: at creation and after every phase function the Record
satisfies `len(Headers) == len(Values) + 1` (the extra header is the
leading `"name"` column, whose value — the run name — is prepended to the
value row only in `saveReorder`); each phase only appends its own columns,
leaving all previously appended headers and values as an untouched prefix;
and the final CSV value row has exactly as many entries as there are
headers. -/
theorem C4_record_invariant_amended :
    ∀ (name : String) (inp : RunInputs),
      let r0 := initRecord name
      let r1 := testBatchWriteRec r0 inp.batchCost
      let r2 := showMemUsageRec r1 inp.memAlloc inp.heapInuse
      let r3 := showDiskUsageRec r2 inp.diskStat
      let r4 := testKeysRec r3 inp.keysNotSupported inp.keysCounts inp.keysDur
      let r5 := testSetRec r4 inp.setCounts inp.setDur
      let r6 := testGetRec r5 inp.getCounts inp.getDur
      let r7 := testGetSetRec r6 inp.mixedSetCount inp.mixedCounts inp.mixedDur
      let r8 := testDeleteRec r7 inp.delCounts inp.delDur
      (r0.Headers.length = r0.Values.length + 1) ∧
      (r1.Headers.length = r1.Values.length + 1) ∧
      (r2.Headers.length = r2.Values.length + 1) ∧
      (r3.Headers.length = r3.Values.length + 1) ∧
      (r4.Headers.length = r4.Values.length + 1) ∧
      (r5.Headers.length = r5.Values.length + 1) ∧
      (r6.Headers.length = r6.Values.length + 1) ∧
      (r7.Headers.length = r7.Values.length + 1) ∧
      (r8.Headers.length = r8.Values.length + 1) ∧
      (r0.Headers <+: r1.Headers ∧ r0.Values <+: r1.Values) ∧
      (r1.Headers <+: r2.Headers ∧ r1.Values <+: r2.Values) ∧
      (r2.Headers <+: r3.Headers ∧ r2.Values <+: r3.Values) ∧
      (r3.Headers <+: r4.Headers ∧ r3.Values <+: r4.Values) ∧
      (r4.Headers <+: r5.Headers ∧ r4.Values <+: r5.Values) ∧
      (r5.Headers <+: r6.Headers ∧ r5.Values <+: r6.Values) ∧
      (r6.Headers <+: r7.Headers ∧ r6.Values <+: r7.Values) ∧
      (r7.Headers <+: r8.Headers ∧ r7.Values <+: r8.Values) ∧
      (saveRow r8).length = r8.Headers.length := by
  intro name inp
  intro r0 r1 r2 r3 r4 r5 r6 r7 r8
  have e1 := extendsBy_batch r0 inp.batchCost
  have e2 := extendsBy_mem r1 inp.memAlloc inp.heapInuse
  have e3 := extendsBy_disk r2 inp.diskStat
  have e4 := extendsBy_keys r3 inp.keysNotSupported inp.keysCounts inp.keysDur
  have e5 := extendsBy_set r4 inp.setCounts inp.setDur
  have e6 := extendsBy_get r5 inp.getCounts inp.getDur
  have e7 := extendsBy_getset r6 inp.mixedSetCount inp.mixedCounts inp.mixedDur
  have e8 := extendsBy_del r7 inp.delCounts inp.delDur
  have l0 : r0.Headers.length = r0.Values.length + 1 := by
    simp [r0, initRecord]
  have l1 := e1.len_preserve l0
  have l2 := e2.len_preserve l1
  have l3 := e3.len_preserve l2
  have l4 := e4.len_preserve l3
  have l5 := e5.len_preserve l4
  have l6 := e6.len_preserve l5
  have l7 := e7.len_preserve l6
  have l8 := e8.len_preserve l7
  refine ⟨l0, l1, l2, l3, l4, l5, l6, l7, l8,
    ⟨e1.headers_prefix, e1.values_prefix⟩,
    ⟨e2.headers_prefix, e2.values_prefix⟩,
    ⟨e3.headers_prefix, e3.values_prefix⟩,
    ⟨e4.headers_prefix, e4.values_prefix⟩,
    ⟨e5.headers_prefix, e5.values_prefix⟩,
    ⟨e6.headers_prefix, e6.values_prefix⟩,
    ⟨e7.headers_prefix, e7.values_prefix⟩,
    ⟨e8.headers_prefix, e8.values_prefix⟩, ?_⟩
  have l8' : r8.Headers.length = r8.Values.length + 1 := l8
  simp only [saveRow, List.length_cons, List.length_map]
  omega

/-- `inp` with the disk-stat outcome replaced: the same run against the same
measurements, on a path `os.Stat` resolves as given. -/
def withDisk (inp : RunInputs) (stat : Option Int) : RunInputs :=
  RunInputs.mk inp.batchCost inp.memAlloc inp.heapInuse stat
    inp.keysNotSupported inp.keysCounts inp.keysDur inp.setCounts inp.setDur
    inp.getCounts inp.getDur inp.mixedSetCount inp.mixedCounts inp.mixedDur
    inp.delCounts inp.delDur

/-- `inp` with the preliminary `store.Keys` probe outcome replaced. -/
def withKeysNS (inp : RunInputs) (b : Bool) : RunInputs :=
  RunInputs.mk inp.batchCost inp.memAlloc inp.heapInuse inp.diskStat
    b inp.keysCounts inp.keysDur inp.setCounts inp.setDur
    inp.getCounts inp.getDur inp.mixedSetCount inp.mixedCounts inp.mixedDur
    inp.delCounts inp.delDur

/-- C5: when the preliminary `store.Keys` probe reports `NotSupported`,
`testKeys` appends exactly one column (`"Keys op/s"`) with value exactly
`-1` and returns; its result does not depend on any worker measurements
(no workers are spawned); and the run still completes, producing a record
whose header row and value row contain every other phase's column. -/
theorem C5_keys_sentinel :
    (∀ (rec : Record) (counts : List Nat) (d : Nat),
      testKeysRec rec true counts d = recordAppend rec "Keys op/s" (-1)) ∧
    (∀ (rec : Record) (c1 : List Nat) (d1 : Nat) (c2 : List Nat) (d2 : Nat),
      testKeysRec rec true c1 d1 = testKeysRec rec true c2 d2) ∧
    (∀ (name : String) (inp : RunInputs),
      (runRecord name (withKeysNS inp true)).Headers =
        headHeaders ++ diskHeader inp.diskStat ++ tailHeaders ∧
      (runRecord name (withKeysNS inp true)).Values =
        headValues inp ++ diskValue inp.diskStat ++
          (-1 :: (tailValues inp).tail)) := by
  refine ⟨?_, ?_, ?_⟩
  · intro rec counts d
    simp [testKeysRec]
  · intro rec c1 d1 c2 d2
    simp [testKeysRec]
  · intro name inp
    obtain ⟨-, hh, hv⟩ := runRecord_eq name (withKeysNS inp true)
    refine ⟨by simpa [withKeysNS] using hh, ?_⟩
    rw [hv]
    simp [withKeysNS, headValues, diskValue, tailValues]

/-- C9: when `os.Stat` on the store path reports that the path does not
exist, `showDiskUsage` returns early with the record completely unchanged;
consequently, holding every other measurement fixed, such a run's record
has exactly one column fewer than a disk-backed run, and every column after
the missing `"DiskUsage(MiB)"` one sits one position further left. -/
theorem C9_disk_usage_frame :
    (∀ rec : Record, showDiskUsageRec rec none = rec) ∧
    (∀ (name : String) (inp : RunInputs) (sz : Int),
      (runRecord name (withDisk inp none)).Headers =
        headHeaders ++ tailHeaders ∧
      (runRecord name (withDisk inp none)).Values =
        headValues inp ++ tailValues inp ∧
      (runRecord name (withDisk inp (some sz))).Headers =
        headHeaders ++ ["DiskUsage(MiB)"] ++ tailHeaders ∧
      (runRecord name (withDisk inp (some sz))).Values =
        headValues inp ++ [sz] ++ tailValues inp ∧
      (runRecord name (withDisk inp none)).Headers.length + 1 =
        (runRecord name (withDisk inp (some sz))).Headers.length) := by
  refine ⟨fun rec => rfl, ?_⟩
  intro name inp sz
  obtain ⟨-, hh1, hv1⟩ := runRecord_eq name (withDisk inp none)
  obtain ⟨-, hh2, hv2⟩ := runRecord_eq name (withDisk inp (some sz))
  have e1 : headValues (withDisk inp none) = headValues inp := rfl
  have e2 : tailValues (withDisk inp none) = tailValues inp := rfl
  have e3 : headValues (withDisk inp (some sz)) = headValues inp := rfl
  have e4 : tailValues (withDisk inp (some sz)) = tailValues inp := rfl
  refine ⟨?_, ?_, ?_, ?_, ?_⟩
  · simpa [withDisk, diskHeader] using hh1
  · simpa [withDisk, diskValue, e1, e2] using hv1
  · simpa [withDisk, diskHeader] using hh2
  · simpa [withDisk, diskValue, e3, e4] using hv2
  · rw [hh1, hh2]
    simp [withDisk, diskHeader, headHeaders, tailHeaders]

/-- C1: for every time-bounded phase, the reported throughput equals
`n * 1_000_000 / (d / 1000)` and the printed mean latency equals
`d / (n * c)` with `n` the sum of the per-worker counters; the value each
such phase appends to the record is exactly that throughput. -/
theorem C1_metrics_formulas :
    ∀ (counts : List Nat) (c d : Nat),
      phaseReport counts c d =
        (specThroughput counts.sum d, specMeanLatency counts.sum c d) ∧
      (∀ rec : Record, (testSetRec rec counts d).Values =
        rec.Values ++ [Int.ofNat (specThroughput counts.sum d)]) ∧
      (∀ rec : Record, (testGetRec rec counts d).Values =
        rec.Values ++ [Int.ofNat (specThroughput counts.sum d)]) ∧
      (∀ rec : Record, (testKeysRec rec false counts d).Values =
        rec.Values ++ [Int.ofNat (specThroughput counts.sum d)]) ∧
      (∀ rec : Record, (testDeleteRec rec counts d).Values =
        rec.Values ++ [Int.ofNat (specThroughput counts.sum d)]) := by
  intro counts c d
  refine ⟨?_, ?_, ?_, ?_, ?_⟩ <;>
    simp [phaseReport, phaseRate, phaseMean, specThroughput, specMeanLatency,
      sumCounts_eq_sum, testSetRec, testGetRec, testKeysRec, testDeleteRec,
      recordAppend]

/-! ### Backend adapters (`leveldb_store.go`, `pebble_store.go`)

The underlying database is abstracted as an association list of key/value
byte strings; `db.Get` on it reports `ErrNotFound` exactly when the key is
absent, which is what both engines guarantee. -/

/-- The error kinds the embedded adapters surface. -/
inductive StoreErr where
  | notFound
deriving Repr, DecidableEq

/-- Point lookup in the abstract underlying database. -/
def dbLookup (db : List (List Nat × List Nat)) (k : List Nat) :
    Option (List Nat) :=
  match db with
  | [] => none
  | e :: rest => if e.1 = k then some e.2 else dbLookup rest k

/-- `leveldbStore.Get`: a `leveldb.ErrNotFound` from the underlying
`db.Get` is mapped to `(nil, false, nil)`; a present key yields
`(v, true, nil)`. -/
def leveldbGet (db : List (List Nat × List Nat)) (k : List Nat) :
    Option (List Nat) × Bool × Option StoreErr :=
  match dbLookup db k with
  | none => (none, false, none)
  | some v => (some v, true, none)

/-- `pebbleStore.Get`: when the underlying `db.Get` fails — which for an
absent key means `pebble.ErrNotFound` — the function returns
`(nil, false, err)` with that error passed through; a present key yields
the stored (non-nil) slice, `found = (v != nil) = true`, and a nil
error. -/
def pebbleGet (db : List (List Nat × List Nat)) (k : List Nat) :
    Option (List Nat) × Bool × Option StoreErr :=
  match dbLookup db k with
  | none => (none, false, some StoreErr.notFound)
  | some v => (some v, true, none)

/-- The fixed byte prefix `"foo-"` hardcoded in `leveldbStore.Keys`. -/
def fooPrefix : List Nat := [102, 111, 111, 45]

/-- `leveldbStore.Keys`: iterates over
`util.BytesPrefix([]byte("foo-"))` — the hardcoded prefix, not the
`pattern` argument — collecting every matching key and, when requested,
its value (iteration order abstracted away; the claim leaves order
unspecified). -/
def leveldbKeys (db : List (List Nat × List Nat)) (pattern : List Nat)
    (limit : Nat) (withvalues : Bool) :
    List (List Nat) × List (List Nat) :=
  let hits := db.filter (fun e => fooPrefix.isPrefixOf e.1)
  (hits.map (fun e => e.1),
   if withvalues then hits.map (fun e => e.2) else [])

/-- Modelled from the spec (§4.1): a conforming `Keys(prefix, …)` returns
exactly the stored keys having the given `prefix` argument as a byte
prefix. -/
def specPrefixScan (db : List (List Nat × List Nat)) (pre : List Nat) :
    List (List Nat) :=
  (db.filter (fun e => pre.isPrefixOf e.1)).map (fun e => e.1)

/-- C7 failing input: a leveldb store holding only the key `"bar1"`, asked
for prefix `"bar"`, returns no keys — it scans the hardcoded `"foo-"`
range — while the specified contract requires exactly `["bar1"]`; in fact
the result ignores the `pattern` (and `limit`) argument entirely, for any
store contents. -/
theorem C7_keys_ignores_prefix :
    (leveldbKeys [([98, 97, 114, 49], [1])] [98, 97, 114] 0 true).1 = [] ∧
    specPrefixScan [([98, 97, 114, 49], [1])] [98, 97, 114] =
      [[98, 97, 114, 49]] ∧
    (leveldbKeys [([98, 97, 114, 49], [1])] [98, 97, 114] 0 true).1 ≠
      specPrefixScan [([98, 97, 114, 49], [1])] [98, 97, 114] ∧
    (∀ (db : List (List Nat × List Nat)) (p1 p2 : List Nat)
      (lim1 lim2 : Nat) (wv : Bool),
      leveldbKeys db p1 lim1 wv = leveldbKeys db p2 lim2 wv) := by
  refine ⟨by decide, by decide, by decide, ?_⟩
  intro db p1 p2 lim1 lim2 wv
  rfl

/-- C8 counterexample: `pebbleStore.Get` on an absent key does not return
the claimed `(nil, false, nil)` — it passes `pebble.ErrNotFound` through
as a non-nil error. -/
theorem C8_counterexample :
    pebbleGet [] [0] ≠ (none, false, none) ∧
    pebbleGet [] [0] = (none, false, some StoreErr.notFound) := by
  constructor
  · decide
  · decide

/-- C8 amended: on an absent key every adapter signals absence through
`found = false` with no value, but only `leveldbStore.Get` returns a nil
error; `pebbleStore.Get` additionally passes the backend's not-found error
through as a non-nil error. -/
theorem C8_get_absence_amended :
    ∀ (db : List (List Nat × List Nat)) (k : List Nat),
      dbLookup db k = none →
      leveldbGet db k = (none, false, none) ∧
      pebbleGet db k = (none, false, some StoreErr.notFound) := by
  intro db k h
  constructor
  · simp [leveldbGet, h]
  · simp [pebbleGet, h]

/-- Witness for the amended C8 at a concrete input: the empty store and
key `[0]`. -/
theorem C8_get_absence_amended_witness :
    dbLookup [] [0] = none ∧
    leveldbGet [] [0] = (none, false, none) ∧
    pebbleGet [] [0] = (none, false, some StoreErr.notFound) :=
  ⟨rfl, (C8_get_absence_amended [] [0] rfl).1,
    (C8_get_absence_amended [] [0] rfl).2⟩

end KVBench
